import Mathlib

/-!
# Verification of the OpenAPI spec discovery / caching layer

Shallow embedding of the core of `src/utils/dynamic-openapi.ts`,
`src/utils/api-versions.ts` and `src/utils/simple-openapi-loader.ts`.

Parsed YAML documents are modelled by the JSON-like value type `JVal`
(numbers as `Int`; YAML floating-point values do not occur in any claim).
JavaScript `undefined` (an absent property) is modelled by `Option.none`,
JavaScript `null` by `JVal.null`.  A thrown JavaScript exception is
modelled by `Except.error` (for the example generator) or by `Option.none`
at the per-file level of the loaders, matching the source's try/catch
placement.  `import.meta.glob` / `fs` results are passed in explicitly as
environment records, so every function is a pure function of its inputs.
-/

namespace PreviewSite

/-- A parsed YAML/JSON document tree. -/
inductive JVal where
  | null : JVal
  | bool : Bool → JVal
  | num  : Int → JVal
  | str  : String → JVal
  | arr  : List JVal → JVal
  | obj  : List (String × JVal) → JVal

open JVal

/-- JavaScript truthiness of a `JVal` (`NaN` does not arise here). -/
def truthy : JVal → Bool
  | .null => false
  | .bool b => b
  | .num n => n != 0
  | .str s => s != ""
  | .arr _ => true
  | .obj _ => true

/-- First-binding lookup of a key in an object's entry list
(JS objects from YAML parsing have unique keys; first wins). -/
def lookupKey (l : List (String × JVal)) (k : String) : Option JVal :=
  (l.find? (fun p => p.1 == k)).map (·.2)

/-- JS property read `v.k` on a document value: `none` models `undefined`. -/
def getField : JVal → String → Option JVal
  | .obj l, k => lookupKey l k
  | _, _ => none

/-- `x || d` on a possibly-absent property value. -/
def jsOr (x : Option JVal) (d : JVal) : JVal :=
  match x with
  | some v => if truthy v then v else d
  | none => d

/-- Keep a present value only when the predicate holds (used for
JS `if (v.field) { ... }` guards on property values). -/
def optFilter (p : JVal → Bool) : Option JVal → Option JVal
  | some v => if p v then some v else none
  | none => none

/-- Decimal value of a digit list (all characters known to be digits). -/
def digitsVal (l : List Char) : Nat :=
  l.foldl (fun acc c => acc * 10 + (c.toNat - '0'.toNat)) 0

/-- A string that is a canonical decimal numeral (the only strings that
act as array/string indices in JS property access): digits only, and no
leading zero except for `"0"` itself. -/
def canonicalIndex (k : String) : Option Nat :=
  match k.data with
  | [] => none
  | c :: rest =>
    if (c :: rest).all Char.isDigit then
      if c = '0' ∧ rest ≠ [] then none else some (digitsVal (c :: rest))
    else none

/-- JS property access `base?.[part]` as used by the `$ref` walk:
object key lookup, array/string numeric indexing and `length`;
everything else (and access on `null`) yields `undefined`. -/
def jsAccess : JVal → String → Option JVal
  | .obj l, k => lookupKey l k
  | .arr xs, k =>
      if k = "length" then some (.num xs.length)
      else match canonicalIndex k with
        | some i => xs.get? i
        | none => none
  | .str s, k =>
      if k = "length" then some (.num s.length)
      else match canonicalIndex k with
        | some i => (s.data.get? i).map (fun c => .str (String.singleton c))
        | none => none
  | _, _ => none

/-- Remove the first occurrence of `pat` from `l`
(JS `String.prototype.replace` with a string pattern and `''`). -/
def dropFirstOcc (pat : List Char) : List Char → List Char
  | [] => []
  | c :: rest =>
      if pat.isPrefixOf (c :: rest) then (c :: rest).drop pat.length
      else c :: dropFirstOcc pat rest

/-- JS `s.split(sep)` for a single-character separator. -/
def splitChar (sep : Char) : List Char → List (List Char)
  | [] => [[]]
  | c :: rest =>
      let r := splitChar sep rest
      if c = sep then [] :: r
      else
        match r with
        | h :: t => (c :: h) :: t
        | [] => [[c]]

/-- The segment list of a `$ref` value:
`r.replace('#/', '').split('/')` from the source. -/
def refSegments (r : String) : List String :=
  (splitChar '/' (dropFirstOcc "#/".data r.data)).map (fun l => ⟨l⟩)

/-- The `$ref` walk loop of `generateExampleFromSchema`:
`resolvedSchema = resolvedSchema?.[part]; if (!resolvedSchema) return null;`
for each segment; `none` models the early `return null`. -/
def walkRef : JVal → List String → Option JVal
  | cur, [] => some cur
  | cur, p :: rest =>
      match jsAccess cur p with
      | some v => if truthy v then walkRef v rest else none
      | none => none

/-- `Object.entries` on the value found under `properties` (objects give
their entry list; arrays and strings give index/character entries;
numbers and booleans give no entries). -/
def entriesOf : JVal → List (String × JVal)
  | .obj l => l
  | .arr xs => xs.enum.map (fun p => (toString p.1, p.2))
  | .str s => s.data.enum.map (fun p => (toString p.1, .str (String.singleton p.2)))
  | _ => []

/-- JS `v[0]` on the value found under `enum` (a truthy value):
first array element, first character of a string, otherwise `undefined`
(rendered as `JVal.null` — the caller only JSON-stringifies it). -/
def jsIndexZero : JVal → JVal
  | .arr (h :: _) => h
  | .arr [] => .null
  | .str s =>
      match s.data with
      | c :: _ => .str (String.singleton c)
      | [] => .null
  | _ => .null

/-- `generateExampleFromSchema(schema, spec)` from `dynamic-openapi.ts`
(lines 377-429).  `fuel` bounds the call depth (the JS function has no
cycle guard and would overflow the stack on a cyclic `$ref` chain;
`Except.error` models a thrown exception / stack overflow).  Precedence,
exactly as in the source: falsy schema → `null`; explicit `example`
property → returned verbatim; truthy `$ref` → resolved and recursed
(a failed walk → `null`; a non-string `$ref` would throw at `.replace`);
otherwise the `switch (schema.type)`. -/
def generateExampleFromSchema (spec : JVal) : Nat → JVal → Except Unit JVal
  | 0, _ => .error ()
  | fuel + 1, schema =>
    if truthy schema = false then .ok .null
    else
      match getField schema "example" with
      | some v => .ok v
      | none =>
        match optFilter truthy (getField schema "$ref") with
        | some (.str r) =>
            (match walkRef spec (refSegments r) with
             | some target => generateExampleFromSchema spec fuel target
             | none => .ok .null)
        | some _ => .error ()
        | none =>
          match getField schema "type" with
          | some (.str "string") =>
              (match getField schema "format" with
               | some (.str "email") => .ok (.str "user@example.com")
               | some (.str "date-time") => .ok (.str "2024-01-01T00:00:00Z")
               | some (.str "date") => .ok (.str "2024-01-01")
               | _ =>
                 match optFilter truthy (getField schema "enum") with
                 | some ev => .ok (jsIndexZero ev)
                 | none => .ok (.str "string"))
          | some (.str "number") =>
              (match getField schema "default" with
               | some d => .ok d
               | none => .ok (.num 0))
          | some (.str "integer") =>
              (match getField schema "default" with
               | some d => .ok d
               | none => .ok (.num 0))
          | some (.str "boolean") =>
              (match getField schema "default" with
               | some d => .ok d
               | none => .ok (.bool false))
          | some (.str "array") =>
              (match optFilter truthy (getField schema "items") with
               | some items =>
                   (match generateExampleFromSchema spec fuel items with
                    | .ok e => .ok (.arr [e])
                    | .error e => .error e)
               | none => .ok (.arr []))
          | some (.str "object") =>
              (match optFilter truthy (getField schema "properties") with
               | some props =>
                   (match (entriesOf props).mapM
                       (fun kv => (generateExampleFromSchema spec fuel kv.2).map
                         (fun e => (kv.1, e))) with
                    | .ok l => .ok (.obj l)
                    | .error e => .error e)
               | none => .ok (.obj []))
          | _ => .ok .null

/-! ## String helpers (JS semantics, kernel-reducible) -/

/-- JS `hay.includes(needle)`. -/
def strIncludes (hay needle : String) : Bool :=
  go needle.data hay.data
where
  go (n : List Char) : List Char → Bool
    | [] => n.isEmpty
    | c :: rest => n.isPrefixOf (c :: rest) || go n rest

/-- JS `s.startsWith(pre)`. -/
def strStartsWith (s pre : String) : Bool :=
  pre.data.isPrefixOf s.data

/-- JS `s.endsWith(suf)`. -/
def strEndsWith (s suf : String) : Bool :=
  suf.data.isSuffixOf s.data

/-- JS `s.toUpperCase()` (ASCII; the inputs are HTTP method names). -/
def strToUpper (s : String) : String :=
  ⟨s.data.map Char.toUpper⟩

/-- JS `s.toLowerCase()` (ASCII). -/
def strToLower (s : String) : String :=
  ⟨s.data.map Char.toLower⟩

/-- JS `list.join(sep)`. -/
def joinSep (sep : String) : List String → String
  | [] => ""
  | [x] => x
  | x :: y :: rest => x ++ sep ++ joinSep sep (y :: rest)

/-! ## Operation-id synthesis (`generateOperationId`, lines 263-271) -/

/-- Step 1 of `generateOperationId`: `.replace(/[{}]/g, '')`. -/
def removeBracesL (l : List Char) : List Char :=
  l.filter (fun c => c != '{' && c != '}')

/-- Step 2: `.replace(/[^a-zA-Z0-9]/g, '_')`. -/
def underscoreMap (l : List Char) : List Char :=
  l.map (fun c => if c.isAlphanum then c else '_')

/-- Step 3: `.replace(/_+/g, '_')` — adjacent underscores collapse. -/
def collapseL : List Char → List Char
  | [] => []
  | [c] => [c]
  | c :: d :: rest =>
      if c = '_' ∧ d = '_' then collapseL (d :: rest)
      else c :: collapseL (d :: rest)

/-- Step 4: `.replace(/^_|_$/g, '')` removes one leading underscore. -/
def stripLeadOne : List Char → List Char
  | [] => []
  | c :: t => if c = '_' then t else c :: t

/-- Step 4 continued: the same regex removes one trailing underscore. -/
def stripTrailOne : List Char → List Char
  | [] => []
  | [c] => if c = '_' then [] else [c]
  | c :: d :: rest => c :: stripTrailOne (d :: rest)

/-- The `cleanPath` local of `generateOperationId`: the full four-step
replace chain from the source. -/
def cleanPath (path : String) : String :=
  ⟨stripTrailOne (stripLeadOne (collapseL (underscoreMap (removeBracesL path.data))))⟩

/-- `generateOperationId(method, path)` from `dynamic-openapi.ts`. -/
def generateOperationId (method path : String) : String :=
  method ++ "_" ++ cleanPath path

/-- The spec's wording of the sanitizer, defined independently of the
source's replace chain: every maximal non-alphanumeric run becomes a
single underscore (emitted at the end of the run). -/
def runsToUnderscore : List Char → List Char
  | [] => []
  | [c] => if c.isAlphanum then [c] else ['_']
  | c :: d :: rest =>
      if c.isAlphanum then c :: runsToUnderscore (d :: rest)
      else if d.isAlphanum then '_' :: runsToUnderscore (d :: rest)
      else runsToUnderscore (d :: rest)

/-- Drop a trailing run of underscores. -/
def dropTrailU : List Char → List Char
  | [] => []
  | c :: rest =>
      match dropTrailU rest with
      | [] => if c = '_' then [] else [c]
      | r => c :: r

/-- The spec's sanitizer: remove `{`/`}`, replace each non-alphanumeric
run with one underscore, strip leading and trailing underscores. -/
def specSanitize (path : String) : String :=
  ⟨dropTrailU ((runsToUnderscore (removeBracesL path.data)).dropWhile (· = '_'))⟩

/-- No two adjacent underscores occur in the list (an invariant of the
collapsed / run-replaced strings, used to relate the two sanitizers). -/
def noDoubleU : List Char → Bool
  | [] => true
  | [_] => true
  | c :: d :: rest => if c = '_' ∧ d = '_' then false else noDoubleU (d :: rest)

/-! ## Data model of `dynamic-openapi.ts` -/

/-- `formatServiceName(specId)` (lines 276-282): capitalize each
hyphen-separated word, join with spaces, and turn a trailing `Api`
into `API`. -/
def formatServiceName (specId : String) : String :=
  let cap : List Char → List Char
    | [] => []
    | c :: rest => c.toUpper :: rest
  let joined := joinSep " " ((splitChar '-' specId.data).map (fun w => ⟨cap w⟩))
  if strEndsWith joined "Api" then joined.dropRight 3 ++ "API" else joined

/-- One `DynamicApiOperation` (the `markdownContent` HTML rendering is a
presentation artifact built from the same operation object and is not
modelled; no claim mentions it). -/
structure DynamicApiOperation where
  operationId : JVal
  method : String
  path : String
  summary : JVal
  description : Option JVal
  tags : JVal

/-- One `DynamicApiSpec`. -/
structure DynamicApiSpec where
  id : String
  fileName : String
  title : JVal
  description : Option JVal
  version : JVal
  serviceName : String
  operations : List DynamicApiOperation
  spec : JVal
  language : String

/-- The module-level `apiSpecCache` record. -/
structure ApiSpecCacheEntry where
  specs : List DynamicApiSpec
  lastUpdated : Nat

/-- `CACHE_DURATION = 5 * 60 * 1000` (milliseconds). -/
def CACHE_DURATION : Nat := 5 * 60 * 1000

/-- `clearApiSpecCache()` (line 612). -/
def clearApiSpecCache (_ : Option ApiSpecCacheEntry) : Option ApiSpecCacheEntry :=
  none

/-- The environment a request sees: the eagerly imported glob results
(one entry per file path, `none` as parse result models a `parse` throw)
and whether the corresponding `import.meta.glob` call itself throws
(the only way into the source's `catch (globError)` branches). -/
structure SpecFiles where
  versionedFiles : List (String × Option JVal)
  legacyFiles : List (String × Option JVal)
  versionedGlobThrows : Bool
  versionsGlobThrows : Bool

/-- The HTTP methods probed by `extractOperationsFromSpec`, in source
order. -/
def httpMethods : List String :=
  ["get", "post", "put", "delete", "patch", "options", "head"]

/-- Stable insertion sort: `a` is placed before the first element that is
strictly greater, matching the (stable) `Array.prototype.sort`. -/
def insertStable {α : Type} (lt : α → α → Bool) (a : α) : List α → List α
  | [] => [a]
  | b :: rest => if lt b a then b :: insertStable lt a rest else a :: b :: rest

/-- Stable sort by a strict comparison. -/
def stableSort {α : Type} (lt : α → α → Bool) : List α → List α
  | [] => []
  | a :: rest => insertStable lt a (stableSort lt rest)

/-- Strict comparison of operations by `summary` via `localeCompare`,
modelled on code points (string summaries are what occur; the collation
details are irrelevant to every claim, which never compares summaries). -/
def summaryLt (a b : DynamicApiOperation) : Bool :=
  match a.summary, b.summary with
  | .str x, .str y => decide (x < y)
  | _, _ => false

/-- Build one operation entry for a method key found on a path item
(lines 238-254). -/
def mkOperation (method path : String) (op : JVal) : DynamicApiOperation :=
  { operationId := jsOr (getField op "operationId")
      (.str (generateOperationId method path))
    method := strToUpper method
    path := path
    summary := jsOr (getField op "summary")
      (.str (strToUpper method ++ " " ++ path))
    description := getField op "description"
    tags := jsOr (getField op "tags") (.arr []) }

/-- `typeof v === 'object'` for a truthy value. -/
def isObjectType : JVal → Bool
  | .obj _ => true
  | .arr _ => true
  | _ => false

/-- `extractOperationsFromSpec(spec, specId)` (lines 224-258): every
recognized method key on every path item yields an operation; the result
is sorted by summary.

Abstraction note: the per-operation HTML rendering
(`generateOperationMarkdown`, line 252) and the `localeCompare` sort
comparator can throw on malformed operation values — a truthy non-array
`tags` reaches `tags.join` (line 299), a truthy non-string `summary`
makes `localeCompare`'s receiver a non-string (for whichever comparison
pairs the engine's sort happens to visit), and a cyclic `$ref` chain
recurses past the engine's stack limit — and the source's per-file
`catch` (line 119) then skips the whole file.  Which of these fire is
partly engine-defined (comparator call pattern, stack depth), so this
model keeps extraction total: it models the throw-free executions, and
the claim theorems below either state properties that remain true when
the source skips such a file, or evaluate concrete inputs on which no
such throw can occur. -/
def extractOperationsFromSpec (doc : JVal) : List DynamicApiOperation :=
  match optFilter truthy (getField doc "paths") with
  | none => []
  | some paths =>
      let raw := (entriesOf paths).flatMap (fun pe =>
        if truthy pe.2 && isObjectType pe.2 then
          httpMethods.filterMap (fun m =>
            match jsAccess pe.2 m with
            | some op =>
                if truthy op && isObjectType op then some (mkOperation m pe.1 op)
                else none
            | none => none)
        else [])
      stableSort summaryLt raw

/-- The path regex of `loadAllApiSpecs` (line 78):
`/\/apispecs\/([^\/]+)\/([^\/]+)\/([^\/]+)$/` — the path must end in
`/apispecs/<service>/<versionDir>/<fileName>` with nonempty, slash-free
segments and a separator before `apispecs`. -/
def pathMatch3 (p : String) : Option (String × String × String) :=
  match (splitChar '/' p.data).reverse with
  | f :: v :: s :: a :: rest =>
      if a = "apispecs".data ∧ f ≠ [] ∧ v ≠ [] ∧ s ≠ [] ∧ rest ≠ [] then
        some (⟨s⟩, ⟨v⟩, ⟨f⟩)
      else none
  | _ => none

/-- Per-file processing of the versioned scan loop (lines 72-122):
path parse, YAML parse, `info` validation, and document construction.
`none` covers every `continue` branch.  The per-file `catch`'s
extraction-throw skip path is absorbed into the total extraction model
(see the note on `extractOperationsFromSpec`): this definition yields a
document for every file whose throw-free processing succeeds. -/
def processVersionedFile (language : String) (p : String × Option JVal) :
    Option DynamicApiSpec :=
  match pathMatch3 p.1 with
  | none => none
  | some (serviceName, versionDir, fileName) =>
    match p.2 with
    | none => none
    | some doc =>
      if truthy doc then
        match optFilter truthy (getField doc "info") with
        | none => none
        | some info =>
            some
              { id := serviceName
                fileName := fileName
                title := jsOr (getField info "title")
                  (.str (formatServiceName serviceName))
                description := getField info "description"
                version := jsOr (getField info "version") (.str versionDir)
                serviceName := formatServiceName serviceName
                operations := extractOperationsFromSpec doc
                spec := doc
                language := language }
      else none

/-- The language/version path filter of the versioned scan (lines 65-67). -/
def langVerFilter (language version : String) (path : String) : Bool :=
  strIncludes path ("/docs/" ++ language ++ "/apispecs/") &&
    strIncludes path ("/" ++ version ++ "/")

/-- The versioned scan: filter the glob listing, then process each file. -/
def scanVersionedSpecs (files : List (String × Option JVal))
    (language version : String) : List DynamicApiSpec :=
  (files.filter (fun p => langVerFilter language version p.1)).filterMap
    (processVersionedFile language)

/-- Per-file processing of `loadLegacyApiSpecs` (lines 168-211).  As in
`processVersionedFile`, the per-file `catch`'s extraction-throw skip
path is absorbed into the total extraction model (see
`extractOperationsFromSpec`). -/
def processLegacyFile (language : String) (p : String × Option JVal) :
    Option DynamicApiSpec :=
  let fileName : String := ⟨((splitChar '/' p.1.data).getLastD [])⟩
  let specId : String :=
    if strEndsWith fileName ".yaml" then fileName.dropRight 5
    else if strEndsWith fileName ".yml" then fileName.dropRight 4
    else fileName
  match p.2 with
  | none => none
  | some doc =>
    if truthy doc then
      match optFilter truthy (getField doc "info") with
      | none => none
      | some info =>
          some
            { id := specId
              fileName := fileName
              title := jsOr (getField info "title") (.str specId)
              description := getField info "description"
              version := jsOr (getField info "version") (.str "1.0.0")
              serviceName := formatServiceName specId
              operations := extractOperationsFromSpec doc
              spec := doc
              language := language }
    else none

/-- `loadLegacyApiSpecs(language)` (lines 150-219): the flat-layout scan;
it neither reads nor writes the versioned cache. -/
def loadLegacyApiSpecs (files : SpecFiles) (language : String) :
    List DynamicApiSpec :=
  (files.legacyFiles.filter (fun p =>
      strIncludes p.1 ("/docs/" ++ language ++ "/apispecs/"))).filterMap
    (processLegacyFile language)

/-- Result of one `loadAllApiSpecs` call: the returned list and the
module cache afterwards. -/
structure LoadResult where
  specs : List DynamicApiSpec
  cache : Option ApiSpecCacheEntry

/-- One step of the cache-hit filter
`spec.language === language && spec.version.startsWith(version)`
(lines 44-46). `none` models the `TypeError` thrown by `.startsWith`
when a cached document declared a non-string `info.version` (the `&&`
short-circuit protects mismatched languages from it). -/
def filterCachedSpec (language version : String) (s : DynamicApiSpec) :
    Option Bool :=
  if s.language = language then
    match s.version with
    | .str sv => some (strStartsWith sv version)
    | _ => none
  else some false

/-- `Array.prototype.filter` over the cached specs; a thrown `TypeError`
aborts the whole call (`none`). -/
def jsFilterCached (language version : String) :
    List DynamicApiSpec → Option (List DynamicApiSpec)
  | [] => some []
  | s :: rest => do
      let b ← filterCachedSpec language version s
      let r ← jsFilterCached language version rest
      pure (if b then s :: r else r)

/-- `loadAllApiSpecs(language, version)` (lines 38-145).  The computed
`cacheKey` string (line 41) is dead code in the source: the cache test
only checks the single global entry's age.  A fresh scan stores its
result; the legacy fallback runs only from `catch (globError)` and does
not touch the cache; a `TypeError` on the cache-hit filter reaches the
outer catch, which returns `[]`. -/
def loadAllApiSpecs (files : SpecFiles) (cache : Option ApiSpecCacheEntry)
    (now : Nat) (language version : String) : LoadResult :=
  let fresh : Bool :=
    match cache with
    | some entry => now - entry.lastUpdated < CACHE_DURATION
    | none => false
  if fresh = true then
    match cache with
    | some entry =>
        (match jsFilterCached language version entry.specs with
         | some filtered => ⟨filtered, cache⟩
         | none => ⟨[], cache⟩)
    | none => ⟨[], cache⟩
  else
    if files.versionedGlobThrows then
      ⟨loadLegacyApiSpecs files language, cache⟩
    else
      let specs := scanVersionedSpecs files.versionedFiles language version
      ⟨specs, some ⟨specs, now⟩⟩

/-- `getApiSpecById(specId, language, version)` (lines 434-437). -/
def getApiSpecById (files : SpecFiles) (cache : Option ApiSpecCacheEntry)
    (now : Nat) (specId language version : String) :
    Option DynamicApiSpec × Option ApiSpecCacheEntry :=
  let r := loadAllApiSpecs files cache now language version
  (r.specs.find? (fun s => s.id == specId), r.cache)

/-- `getApiOperation(specId, operationId, language)` (lines 442-447):
note that no version is passed, so `getApiSpecById`'s default `'v3'`
applies. -/
def getApiOperation (files : SpecFiles) (cache : Option ApiSpecCacheEntry)
    (now : Nat) (specId operationId language : String) :
    Option DynamicApiOperation × Option ApiSpecCacheEntry :=
  let (spec?, c) := getApiSpecById files cache now specId language "v3"
  match spec? with
  | none => (none, c)
  | some sp =>
      (sp.operations.find? (fun op =>
        match op.operationId with
        | .str s => s == operationId
        | _ => false), c)

/-- JS string interpolation of a value (template literals in the header
projection; only string operation ids occur in the claims). -/
def jvalDisplay : JVal → String
  | .null => "null"
  | .bool b => if b then "true" else "false"
  | .num n => toString n
  | .str s => s
  | .arr xs => joinSep "," (xs.attach.map (fun x => jvalDisplay x.1))
  | .obj _ => "[object Object]"
decreasing_by
  have := List.sizeOf_lt_of_mem x.2
  simp only [JVal.arr.sizeOf_spec]
  omega

/-- One entry of the header dropdown projection. -/
structure HeaderOp where
  operationId : JVal
  summary : JVal
  path : String

/-- One header spec entry. -/
structure HeaderSpec where
  id : String
  title : JVal
  path : String
  serviceName : String
  operations : List HeaderOp

/-- The per-file loop of `getApiSpecsForHeader` (lines 499-555): the
`processedServices` set makes the FIRST file per service directory win —
even a file that then fails parsing or validation consumes its service. -/
def headerScan (language version : String) :
    List (String × Option JVal) → List String → List HeaderSpec
  | [], _ => []
  | (p, parsed) :: rest, processed =>
    match pathMatch3 p with
    | none => headerScan language version rest processed
    | some (serviceName, _, _) =>
      if processed.contains serviceName then
        headerScan language version rest processed
      else
        let processed' := serviceName :: processed
        match parsed with
        | none => headerScan language version rest processed'
        | some doc =>
          if truthy doc then
            match optFilter truthy (getField doc "info") with
            | none => headerScan language version rest processed'
            | some info =>
                { id := serviceName
                  title := jsOr (getField info "title")
                    (.str (formatServiceName serviceName))
                  path := "/api/" ++ serviceName ++ "?version=" ++ version ++
                    "&lang=" ++ language
                  serviceName := formatServiceName serviceName
                  operations := ((extractOperationsFromSpec doc).take 8).map
                    (fun op =>
                      { operationId := op.operationId
                        summary := op.summary
                        path := "/api/" ++ serviceName ++ "/" ++
                          jvalDisplay op.operationId ++ "?version=" ++ version ++
                          "&lang=" ++ language })
                } :: headerScan language version rest processed'
          else headerScan language version rest processed'

/-- `getApiSpecsForHeader(language, version)` (lines 452-570): the
recursive glob covers versioned and flat files alike; the language and
version filters then apply; an empty result falls back to the legacy
projection. -/
def getApiSpecsForHeader (files : SpecFiles) (language version : String) :
    List HeaderSpec :=
  let all := files.versionedFiles ++ files.legacyFiles
  let lv := all.filter (fun p => langVerFilter language version p.1)
  let hs := headerScan language version lv []
  if hs.isEmpty then
    (loadLegacyApiSpecs files language).map (fun sp =>
      { id := sp.id
        title := sp.title
        path := "/api/" ++ sp.id ++ "?lang=" ++ language
        serviceName := sp.serviceName
        operations := (sp.operations.take 8).map (fun op =>
          { operationId := op.operationId
            summary := op.summary
            path := "/api/" ++ sp.id ++ "/" ++ jvalDisplay op.operationId ++
              "?lang=" ++ language }) })
  else hs

/-! ## Data model of `api-versions.ts` -/

/-- One `ApiVersionInfo` (`badge`/`description` may be absent; badge
values originate from documents, so they are kept as `JVal`). -/
structure ApiVersionInfo where
  version : String
  label : String
  badge : Option JVal
  description : Option JVal
  specExists : Bool

/-- The module-level `versionCache` `Map` (insertion-ordered key/value
association; only `has`/`get`/`set`/`clear` are used by the source). -/
abbrev VersionCache := List (String × List ApiVersionInfo)

/-- `Map.get` (paired with the `has` test in the source). -/
def cacheGet (c : VersionCache) (k : String) : Option (List ApiVersionInfo) :=
  (List.find? (fun p => p.1 == k) c).map (·.2)

/-- `Map.set` (overwrite or append). -/
def cacheSet (c : VersionCache) (k : String) (v : List ApiVersionInfo) :
    VersionCache :=
  if (List.find? (fun p => p.1 == k) c).isSome then
    List.map (fun p => if p.1 == k then (k, v) else p) c
  else c ++ [(k, v)]

/-- `clearApiVersionCache()` (lines 279-281). -/
def clearApiVersionCache (_ : VersionCache) : VersionCache :=
  ([] : List (String × List ApiVersionInfo))

/-- The version-segment regex of `getApiVersions` (line 78):
`/\/apispecs\/[^\/]+\/([^\/]+)\//` without anchors — the capture of the
leftmost full match of `/apispecs/<seg>/<seg>/`. -/
def matchVersionSegment (p : String) : Option String :=
  go p.data
where
  tryAt (l : List Char) : Option String :=
    if "/apispecs/".data.isPrefixOf l then
      let after := l.drop "/apispecs/".data.length
      let x := after.takeWhile (fun c => c ≠ '/')
      if x ≠ [] ∧ (after.drop x.length).head? = some '/' then
        let after2 := after.drop (x.length + 1)
        let y := after2.takeWhile (fun c => c ≠ '/')
        if y ≠ [] ∧ (after2.drop y.length).head? = some '/' then some ⟨y⟩
        else none
      else none
    else none
  go : List Char → Option String
    | [] => none
    | c :: rest =>
      match tryAt (c :: rest) with
      | some v => some v
      | none => go rest

/-- `version.match(/^v\d+$/)` (line 82). -/
def isVersionDir (v : String) : Bool :=
  match v.data with
  | 'v' :: ds => ds ≠ [] && ds.all Char.isDigit
  | _ => false

/-- `parseInt(v.substring(1))` for a `v<digits>` name. -/
def versionNum (v : String) : Nat :=
  digitsVal (v.data.drop 1)

/-- The badge computation of lines 104-115.  `none` in the outer
`Option` models the `TypeError` thrown by `semVer.includes` when the
document's `info.version` is truthy but not a string (caught by the
per-file `try`, which then skips pushing the version info). -/
def versionBadge (info : JVal) : Option (Option JVal) :=
  match optFilter truthy (getField info "x-version-status") with
  | some x => some (some x)
  | none =>
    match optFilter truthy (getField info "version") with
    | some (.str s) =>
        if strIncludes s "beta" then some (some (.str "Beta"))
        else if strIncludes s "alpha" then some (some (.str "Alpha"))
        else some none
    | some _ => none
    | none => some none

/-- One iteration of the per-file loop of `getApiVersions`
(lines 75-123) on the accumulated `(versionSet, versions)` state.
`versionSet.add` runs before the badge computation, so a badge
`TypeError` keeps the version name while dropping its info record. -/
def collectVersionsStep (acc : List String × List ApiVersionInfo)
    (p : String × Option JVal) : List String × List ApiVersionInfo :=
  let (vset, vinfos) := acc
  match matchVersionSegment p.1 with
  | none => acc
  | some version =>
    if isVersionDir version then
      match p.2 with
      | none => acc
      | some doc =>
        if truthy doc then
          match optFilter truthy (getField doc "info") with
          | none => acc
          | some info =>
            let vset' := if vset.contains version then vset
              else vset ++ [version]
            match versionBadge info with
            | none => (vset', vinfos)
            | some badge =>
                (vset',
                  vinfos ++ [{ version := version
                               label := version
                               badge := badge
                               description := getField info "description"
                               specExists := true }])
        else acc
    else acc

/-- The per-file loop of `getApiVersions`, folding the file list in
source order and so preserving the loop's `versionSet` insertion order
and `versions` push order (first file wins the later
`versions.find(...)` lookup). -/
def collectVersions (files : List (String × Option JVal)) :
    List String × List ApiVersionInfo :=
  files.foldl collectVersionsStep ([], [])

/-- The sorted projection of lines 126-145.  Note the source compares
`index` against `versions.length - 1` — the length of the per-FILE
array — not against the number of distinct versions; both lengths are
passed in so the definition can mirror that exactly (`Int` subtraction,
as in JS). -/
def mkSortedVersion (fileCount : Nat) (vinfos : List ApiVersionInfo)
    (idx : Nat) (version : String) : ApiVersionInfo :=
  let existing := vinfos.find? (fun v => v.version == version)
  { version := version
    label := if idx = 0 then version ++ " (Latest)" else version
    badge :=
      match existing with
      | some e =>
          (match e.badge with
           | some b =>
               if truthy b then some b
               else positionalBadge
           | none => positionalBadge)
      | none => positionalBadge
    description :=
      match existing with
      | some e =>
          (match e.description with
           | some d => if truthy d then some d else positionalDescription
           | none => positionalDescription)
      | none => positionalDescription
    specExists := true }
where
  positionalBadge : Option JVal :=
    if idx = 0 then some (.str "Latest")
    else if (idx : Int) = (fileCount : Int) - 1 then some (.str "Legacy")
    else none
  positionalDescription : Option JVal :=
    if idx = 0 then some (.str "Current stable version with latest features")
    else if (idx : Int) = (fileCount : Int) - 1 then
      some (.str "Legacy version - consider upgrading")
    else some (.str "Stable version")

/-- The hard-coded fallback of the outer `catch` (lines 157-172). -/
def fallbackVersions : List ApiVersionInfo :=
  [{ version := "v2", label := "v2 (Latest)", badge := some (.str "Latest")
     description := some (.str "Current stable version"), specExists := false },
   { version := "v1", label := "v1", badge := some (.str "Legacy")
     description := some (.str "Legacy version"), specExists := false }]

/-- `getApiVersions(serviceName, language)` (lines 44-177).  The `now`
argument models the wall clock at the call: the source never reads it on
any path (its `CACHE_DURATION` constant is declared and never used), so
the definition ignores it. -/
def getApiVersions (files : SpecFiles) (cache : VersionCache) (_now : Nat)
    (serviceName language : String) : List ApiVersionInfo × VersionCache :=
  let cacheKey := serviceName ++ "-" ++ language
  match cacheGet cache cacheKey with
  | some cached => (cached, cache)
  | none =>
    if files.versionsGlobThrows then
      (fallbackVersions, cacheSet cache cacheKey fallbackVersions)
    else
      let serviceFiles := files.versionedFiles.filter (fun p =>
        strIncludes p.1 ("/docs/" ++ language ++ "/apispecs/" ++ serviceName ++ "/"))
      let (vset, vinfos) := collectVersions serviceFiles
      let sorted := stableSort (fun a b => versionNum a > versionNum b) vset
      let out := (sorted.enum).map (fun p =>
        mkSortedVersion vinfos.length vinfos p.1 p.2)
      (out, cacheSet cache cacheKey out)

/-! ## Data model of `simple-openapi-loader.ts` -/

/-- One `SimpleApiOperation`. -/
structure SimpleApiOperation where
  operationId : JVal
  method : String
  path : String
  summary : JVal
  description : Option JVal
  tags : JVal

/-- One `SimpleApiSpec` (`title`/`version` are taken verbatim from
`spec.info`, with no fallback, hence `Option JVal`). -/
structure SimpleApiSpec where
  id : String
  title : Option JVal
  description : JVal
  version : Option JVal
  language : String
  folderVersion : String
  spec : JVal
  operations : List SimpleApiOperation
  fileName : String

/-- The directory listing `loadSimpleApiSpec` reads: `none` when the
service/version directory does not exist; file entries carry the parse
result (`none` models a read/parse throw). -/
structure SimpleDir where
  listing : Option (List (String × Option JVal))

/-- The method probe order of the simple loader (line 75) — note it
differs from `extractOperationsFromSpec`'s order. -/
def simpleMethods : List String :=
  ["get", "post", "put", "patch", "delete", "head", "options"]

/-- `'operationId' in operation` (line 78): a key-presence test, not a
truthiness test.  `none` models the `TypeError` the `in` operator throws
on a truthy primitive operand. -/
def containsKey : JVal → String → Option Bool
  | .obj l, k => some ((l.find? (fun p => p.1 == k)).isSome)
  | .arr _, _ => some false
  | _, _ => none

/-- One method probe of the simple loader's inner `forEach` (lines
76-88): the operation is included only when the method object carries an
`operationId` KEY (`'operationId' in operation`); a present-but-falsy id
falls back to the hyphenated `method-path` form.  `Except.error` models
the `TypeError` the `in` operator throws on a truthy primitive. -/
def simpleOpFor (pathStr m : String) (pathItem : JVal) :
    Except Unit (List SimpleApiOperation) :=
  match jsAccess pathItem m with
  | some op =>
      if truthy op then
        match containsKey op "operationId" with
        | none => .error ()
        | some true =>
            .ok [{ operationId := jsOr (getField op "operationId")
                     (.str (m ++ "-" ++ pathStr))
                   method := strToUpper m
                   path := pathStr
                   summary := jsOr (getField op "summary") (.str "")
                   description := getField op "description"
                   tags := jsOr (getField op "tags") (.arr []) }]
        | some false => .ok []
      else .ok []
  | none => .ok []

/-- The inner `methods.forEach` of the simple loader: probe every method
key in order; a thrown `TypeError` aborts the whole extraction. -/
def simpleMethodOps (pathStr : String) (pathItem : JVal) :
    List String → Except Unit (List SimpleApiOperation)
  | [] => .ok []
  | m :: ms =>
      match simpleOpFor pathStr m pathItem, simpleMethodOps pathStr pathItem ms with
      | .error e, _ => .error e
      | _, .error e => .error e
      | .ok a, .ok b => .ok (a ++ b)

/-- The outer `Object.entries(spec.paths).forEach` of the simple loader:
falsy or string path items are skipped (line 73). -/
def simplePathEntries : List (String × JVal) →
    Except Unit (List SimpleApiOperation)
  | [] => .ok []
  | (pathStr, pathItem) :: rest =>
      if truthy pathItem = false then simplePathEntries rest
      else
        match pathItem with
        | .str _ => simplePathEntries rest
        | _ =>
            match simpleMethodOps pathStr pathItem simpleMethods,
                simplePathEntries rest with
            | .error e, _ => .error e
            | _, .error e => .error e
            | .ok a, .ok b => .ok (a ++ b)

/-- The operation extraction of `loadSimpleApiSpec` (lines 70-90):
operations lacking an `operationId` key are silently dropped; a present
but falsy `operationId` falls back to the hyphenated `method-path` id.
No sorting is applied. -/
def simpleExtractOps (spec : JVal) : Except Unit (List SimpleApiOperation) :=
  match optFilter truthy (getField spec "paths") with
  | none => .ok []
  | some paths => simplePathEntries (entriesOf paths)

/-- The per-file body of the `for (const fileName of files)` loop
(lines 55-108): `none` covers both `continue` branches (invalid spec)
and the per-file `catch`. -/
def processSimpleFile (serviceName language version : String)
    (p : String × Option JVal) : Option SimpleApiSpec :=
  match p.2 with
  | none => none
  | some doc =>
    if truthy doc then
      match optFilter truthy (getField doc "info"),
            optFilter truthy (getField doc "openapi") with
      | some info, some _ =>
          (match simpleExtractOps doc with
           | .error _ => none
           | .ok ops =>
               some
                 { id := serviceName
                   title := getField info "title"
                   description := jsOr (getField info "description") (.str "")
                   version := getField info "version"
                   language := language
                   folderVersion := version
                   spec := doc
                   operations := ops
                   fileName := p.1 })
      | _, _ => none
    else none

/-- `loadSimpleApiSpec(serviceName, language, version)` (lines 27-117):
missing directory or no YAML files → `null`; otherwise the first file
that parses to a document with truthy `info` and `openapi` (and whose
extraction does not throw) wins. -/
def loadSimpleApiSpec (dir : SimpleDir) (serviceName language version : String) :
    Option SimpleApiSpec :=
  match dir.listing with
  | none => none
  | some entries =>
    let files := entries.filter (fun f =>
      strEndsWith f.1 ".yaml" || strEndsWith f.1 ".yml")
    if files.isEmpty then none
    else files.firstM (processSimpleFile serviceName language version)

/-! ## Auxiliary predicates used by the theorems -/

/-- A glob entry that survives all `continue` branches of the versioned
scan loop: a parseable path, a parseable document, and a truthy `info`
block.  Stated independently of `processVersionedFile` so that theorems
about the scan's output are not circular. -/
def isValidSpecFile (p : String × Option JVal) : Bool :=
  (pathMatch3 p.1).isSome &&
    (match p.2 with
     | some d => truthy d && (optFilter truthy (getField d "info")).isSome
     | none => false)

/-- The service directory segment of a versioned spec path. -/
def serviceDirOf (path : String) : String :=
  match pathMatch3 path with
  | some t => t.1
  | none => ""

/-- The versioned cache neither exists nor is fresh (the condition under
which `loadAllApiSpecs` reaches its scan / fallback branches). -/
def cacheMiss (cache : Option ApiSpecCacheEntry) (now : Nat) : Prop :=
  match cache with
  | some entry => CACHE_DURATION ≤ now - entry.lastUpdated
  | none => True

/-- The `schema.type` values handled by the `switch` in
`generateExampleFromSchema`; anything else falls to `default`. -/
def isHandledType : JVal → Bool
  | .str s =>
      s ∈ (["string", "number", "integer", "boolean", "array", "object"] :
        List String)
  | _ => false

/-- The `schema.format` values the string branch recognizes
(lines 397-399); an absent format or any other value — `"uuid"`, a
non-string, … — falls through to the enum / `"string"` rules. -/
def isRecognizedFormat : Option JVal → Bool
  | some (.str "email") => true
  | some (.str "date-time") => true
  | some (.str "date") => true
  | _ => false

/-- An OpenAPI document with a single path item carrying a single method
key (used to state the per-operation extraction rules). -/
def singlePathSpec (pathStr m : String) (op : JVal) : JVal :=
  .obj [("paths", .obj [(pathStr, .obj [(m, op)])])]

/-! ## Concrete environments for the counterexample / failing-input
theorems -/

/-- A well-formed OpenAPI document whose `info.version` is the usual
semantic-version string. -/
def paymentDoc : JVal :=
  .obj [("openapi", .str "3.0.0"),
    ("info", .obj [("title", .str "Payment API"), ("version", .str "1.0.0")]),
    ("paths", .obj [])]

/-- One valid spec file under `en/apispecs/payment-api/v3/`. -/
def envOneV3File : SpecFiles :=
  { versionedFiles :=
      [("/src/content/docs/en/apispecs/payment-api/v3/payment.yaml",
        some paymentDoc)]
    legacyFiles := []
    versionedGlobThrows := false
    versionsGlobThrows := false }

/-- A minimal valid document (truthy `info` only). -/
def minimalDoc : JVal := .obj [("info", .obj [("title", .str "A")])]

/-- Two valid spec files in the same service directory `pay/v3/`. -/
def envTwoFilesOneService : SpecFiles :=
  { versionedFiles :=
      [("/src/content/docs/en/apispecs/pay/v3/a.yaml", some minimalDoc),
       ("/src/content/docs/en/apispecs/pay/v3/b.yaml", some minimalDoc)]
    legacyFiles := []
    versionedGlobThrows := false
    versionsGlobThrows := false }

/-- The document `envTwoFilesOneService`'s first file produces (its
fields written out in evaluated form). -/
def paySpecA : DynamicApiSpec :=
  { id := "pay", fileName := "a.yaml", title := .str "A", description := none,
    version := .str "v3", serviceName := "Pay", operations := [],
    spec := minimalDoc, language := "en" }

/-- The document its second file produces. -/
def paySpecB : DynamicApiSpec :=
  { id := "pay", fileName := "b.yaml", title := .str "A", description := none,
    version := .str "v3", serviceName := "Pay", operations := [],
    spec := minimalDoc, language := "en" }

/-- No versioned files at all, but one valid legacy flat-layout file. -/
def envLegacyOnly : SpecFiles :=
  { versionedFiles := []
    legacyFiles :=
      [("/src/content/docs/en/apispecs/payment.yaml", some minimalDoc)]
    versionedGlobThrows := false
    versionsGlobThrows := false }

/-- Service `pay`: two valid files in `v1/`, one in `v2/` (three parsed
files, two distinct version directories). -/
def envThreeFilesTwoVersions : SpecFiles :=
  { versionedFiles :=
      [("/src/content/docs/en/apispecs/pay/v1/a.yaml", some minimalDoc),
       ("/src/content/docs/en/apispecs/pay/v1/b.yaml", some minimalDoc),
       ("/src/content/docs/en/apispecs/pay/v2/c.yaml", some minimalDoc)]
    legacyFiles := []
    versionedGlobThrows := false
    versionsGlobThrows := false }

/-- A document living under `v2/` whose own `info.version` string starts
with `"v3"`, and which declares one operation. -/
def v2DocDeclaringV3 : JVal :=
  .obj [("info", .obj [("title", .str "Payment API"), ("version", .str "v3.1")]),
    ("paths", .obj [("/pay",
      .obj [("post", .obj [("operationId", .str "createPayment")])])])]

/-- The only spec file lives under the `v2/` version directory. -/
def envOnlyV2File : SpecFiles :=
  { versionedFiles :=
      [("/src/content/docs/en/apispecs/payment-api/v2/payment.yaml",
        some v2DocDeclaringV3)]
    legacyFiles := []
    versionedGlobThrows := false
    versionsGlobThrows := false }

/-- A valid OpenAPI document whose single operation has no
`operationId` key. -/
def docNoOperationId : JVal :=
  .obj [("openapi", .str "3.0.0"), ("info", .obj [("title", .str "T")]),
    ("paths", .obj [("/a", .obj [("get", .obj [("summary", .str "s")])])])]

/-- A directory with that single file. -/
def dirNoOperationId : SimpleDir :=
  { listing := some [("spec.yaml", some docNoOperationId)] }

/-- The same document but with a present-and-falsy `operationId`. -/
def docFalsyOperationId : JVal :=
  .obj [("openapi", .str "3.0.0"), ("info", .obj [("title", .str "T")]),
    ("paths", .obj [("/a",
      .obj [("get", .obj [("operationId", .str ""), ("summary", .str "s")])])])]

/-- A directory with that single file. -/
def dirFalsyOperationId : SimpleDir :=
  { listing := some [("spec.yaml", some docFalsyOperationId)] }

/-! ## Shared helper lemmas -/

theorem alnum_ne_underscore {c : Char} (h : c.isAlphanum = true) : c ≠ '_' := by
  intro he
  subst he
  exact absurd h (by decide)

/-- Mapping every non-alphanumeric character to `_` and then collapsing
adjacent underscores is the same as replacing every non-alphanumeric run
with a single underscore. -/
theorem collapse_underscoreMap : ∀ l : List Char,
    collapseL (underscoreMap l) = runsToUnderscore l := by
  intro l
  induction l with
  | nil => rfl
  | cons c rest ih =>
    cases rest with
    | nil =>
      by_cases hc : c.isAlphanum = true
      · simp [underscoreMap, collapseL, runsToUnderscore, hc]
      · simp [underscoreMap, collapseL, runsToUnderscore, hc]
    | cons d rest2 =>
      simp only [underscoreMap, List.map_cons] at ih ⊢
      by_cases hc : c.isAlphanum = true
      · have hcu : c ≠ '_' := alnum_ne_underscore hc
        simp [collapseL, runsToUnderscore, hc, hcu, ih]
      · by_cases hd : d.isAlphanum = true
        · have hdu : d ≠ '_' := alnum_ne_underscore hd
          rw [if_pos hd] at ih
          simp [collapseL, runsToUnderscore, hc, hd, hdu, ih]
        · rw [if_neg hd] at ih
          simp [collapseL, runsToUnderscore, hc, hd, ih]

theorem runs_cons_alnum {c : Char} (rest : List Char) (h : c.isAlphanum = true) :
    ∃ t, runsToUnderscore (c :: rest) = c :: t := by
  cases rest with
  | nil => exact ⟨[], by simp [runsToUnderscore, h]⟩
  | cons d r2 => exact ⟨runsToUnderscore (d :: r2), by simp [runsToUnderscore, h]⟩

/-- The run-replaced string never contains two adjacent underscores. -/
theorem noDoubleU_runs : ∀ l : List Char, noDoubleU (runsToUnderscore l) = true := by
  intro l
  induction l with
  | nil => rfl
  | cons c rest ih =>
    cases rest with
    | nil =>
      by_cases hc : c.isAlphanum = true <;> simp [runsToUnderscore, noDoubleU, hc]
    | cons d rest2 =>
      by_cases hc : c.isAlphanum = true
      · have hcu : c ≠ '_' := alnum_ne_underscore hc
        cases hX : runsToUnderscore (d :: rest2) with
        | nil => simp [runsToUnderscore, hc, hX, noDoubleU]
        | cons x xs =>
          have ih2 := ih
          rw [hX] at ih2
          simp [runsToUnderscore, hc, hX, noDoubleU, hcu, ih2]
      · by_cases hd : d.isAlphanum = true
        · have hdu : d ≠ '_' := alnum_ne_underscore hd
          obtain ⟨t, ht⟩ := runs_cons_alnum rest2 hd
          have ih2 := ih
          rw [ht] at ih2
          simp [runsToUnderscore, hc, hd, ht, noDoubleU, hdu, ih2]
        · simp [runsToUnderscore, hc, hd, ih]

theorem noDoubleU_tail {c : Char} {l : List Char}
    (h : noDoubleU (c :: l) = true) : noDoubleU l = true := by
  cases l with
  | nil => rfl
  | cons d rest =>
    rw [noDoubleU] at h
    by_cases hcd : c = '_' ∧ d = '_'
    · rw [if_pos hcd] at h
      cases h
    · rwa [if_neg hcd] at h

theorem noDoubleU_dropWhile (p : Char → Bool) :
    ∀ l, noDoubleU l = true → noDoubleU (l.dropWhile p) = true := by
  intro l
  induction l with
  | nil => intro h; simpa using h
  | cons c rest ih =>
    intro h
    rw [List.dropWhile_cons]
    by_cases hp : p c = true
    · simp only [hp, if_true]
      exact ih (noDoubleU_tail h)
    · simp only [hp, if_false]
      exact h

/-- On strings without adjacent underscores, removing one leading
underscore is the same as removing the whole leading underscore run. -/
theorem stripLeadOne_eq_dropWhile {l : List Char} (h : noDoubleU l = true) :
    stripLeadOne l = l.dropWhile (· = '_') := by
  cases l with
  | nil => rfl
  | cons c rest =>
    by_cases hc : c = '_'
    · subst hc
      cases rest with
      | nil => simp [stripLeadOne, List.dropWhile]
      | cons x xs =>
        have hx : ¬ (x = '_') := by
          intro hx
          subst hx
          rw [noDoubleU] at h
          simp at h
        simp [stripLeadOne, List.dropWhile_cons, hx]
    · simp [stripLeadOne, hc, List.dropWhile_cons]

theorem stripTrailOne_eq_nil : ∀ {d : Char} {rest : List Char},
    stripTrailOne (d :: rest) = [] → d = '_' ∧ rest = [] := by
  intro d rest h
  cases rest with
  | nil =>
    by_cases hd : d = '_'
    · exact ⟨hd, rfl⟩
    · rw [stripTrailOne, if_neg hd] at h
      cases h
  | cons e r2 =>
    rw [stripTrailOne] at h
    cases h

/-- On strings without adjacent underscores, removing one trailing
underscore is the same as removing the whole trailing underscore run. -/
theorem stripTrail_eq_dropTrail : ∀ l, noDoubleU l = true →
    stripTrailOne l = dropTrailU l := by
  intro l
  induction l with
  | nil => intro _; rfl
  | cons c rest ih =>
    intro h
    cases rest with
    | nil => rfl
    | cons d r2 =>
      have ht := ih (noDoubleU_tail h)
      cases hr : dropTrailU (d :: r2) with
      | nil =>
        have hs : stripTrailOne (d :: r2) = [] := ht.trans hr
        obtain ⟨hd, hr2⟩ := stripTrailOne_eq_nil hs
        subst hd
        subst hr2
        have hcu : ¬(c = '_') := by
          intro hcc
          subst hcc
          rw [noDoubleU] at h
          simp at h
        simp [stripTrailOne, dropTrailU, hcu]
      | cons x xs =>
        have ih2 := ht.trans hr
        have h1 : stripTrailOne (c :: d :: r2) = c :: stripTrailOne (d :: r2) := rfl
        have h2 : dropTrailU (c :: d :: r2) = c :: (x :: xs) := by
          rw [dropTrailU, hr]
        rw [h1, ih2, h2]

/-- The source's four-step replace chain equals the spec's description
of the sanitizer. -/
theorem cleanPath_eq_specSanitize (path : String) :
    cleanPath path = specSanitize path := by
  unfold cleanPath specSanitize
  rw [collapse_underscoreMap]
  have hnd : noDoubleU (runsToUnderscore (removeBracesL path.data)) = true :=
    noDoubleU_runs _
  rw [stripLeadOne_eq_dropWhile hnd]
  rw [stripTrail_eq_dropTrail _ (noDoubleU_dropWhile _ _ hnd)]

theorem truthy_obj (x : List (String × JVal)) : truthy (.obj x) = true := rfl

/-- A versioned glob entry is kept by the scan loop exactly when
`isValidSpecFile` holds, and then its document's `id` is the service
directory name. -/
theorem processVersionedFile_valid_iff (lang : String) (p : String × Option JVal) :
    (isValidSpecFile p = true →
      ∃ sp, processVersionedFile lang p = some sp ∧ sp.id = serviceDirOf p.1)
    ∧ (isValidSpecFile p = false → processVersionedFile lang p = none) := by
  cases hpm : pathMatch3 p.1 with
  | none =>
    constructor
    · intro hv
      rw [isValidSpecFile, hpm] at hv
      simp at hv
    · intro _
      obtain ⟨p1, p2⟩ := p
      simp only at hpm
      simp [processVersionedFile, hpm]
  | some t =>
    obtain ⟨s, v, f⟩ := t
    obtain ⟨p1, p2⟩ := p
    simp only at hpm
    cases p2 with
    | none =>
      constructor
      · intro hv
        rw [isValidSpecFile, hpm] at hv
        simp at hv
      · intro _
        simp [processVersionedFile, hpm]
    | some d =>
      by_cases htr : truthy d = true
      · cases hinfo : optFilter truthy (getField d "info") with
        | none =>
          constructor
          · intro hv
            rw [isValidSpecFile, hpm] at hv
            simp [htr, hinfo] at hv
          · intro _
            simp [processVersionedFile, hpm, htr, hinfo]
        | some info =>
          constructor
          · intro _
            have hp : processVersionedFile lang (p1, some d)
                = some
                  { id := s
                    fileName := f
                    title := jsOr (getField info "title")
                      (.str (formatServiceName s))
                    description := getField info "description"
                    version := jsOr (getField info "version") (.str v)
                    serviceName := formatServiceName s
                    operations := extractOperationsFromSpec d
                    spec := d
                    language := lang } := by
              simp [processVersionedFile, hpm, htr, hinfo]
            exact ⟨_, hp, by simp [serviceDirOf, hpm]⟩
          · intro hv
            rw [isValidSpecFile, hpm] at hv
            simp [htr, hinfo] at hv
      · constructor
        · intro hv
          rw [isValidSpecFile, hpm] at hv
          simp [htr] at hv
        · intro _
          simp only [Bool.not_eq_true] at htr
          simp [processVersionedFile, hpm, htr]

/-- The `processedServices` set of the header projection makes the
produced service ids pairwise distinct and disjoint from the already
processed set. -/
theorem headerScan_nodup_aux (lang ver : String) :
    ∀ (l : List (String × Option JVal)) (processed : List String),
      ((headerScan lang ver l processed).map (fun h => h.id)).Nodup
      ∧ ∀ s ∈ (headerScan lang ver l processed).map (fun h => h.id),
          s ∉ processed := by
  intro l
  induction l with
  | nil =>
    intro processed
    exact ⟨by simp [headerScan], by simp [headerScan]⟩
  | cons hd rest ih =>
    intro processed
    obtain ⟨p, parsed⟩ := hd
    cases hpm : pathMatch3 p with
    | none =>
      have h1 : headerScan lang ver ((p, parsed) :: rest) processed
          = headerScan lang ver rest processed := by
        rw [headerScan, hpm]
      rw [h1]
      exact ih processed
    | some t =>
      obtain ⟨svc, vd, fn⟩ := t
      by_cases hc : processed.contains svc = true
      · have hmemT : svc ∈ processed := by simpa using hc
        have h1 : headerScan lang ver ((p, parsed) :: rest) processed
            = headerScan lang ver rest processed := by
          simp [headerScan, hpm, hmemT]
        rw [h1]
        exact ih processed
      · have hnotmem : svc ∉ processed := by
          intro hmem
          exact hc (List.elem_eq_true_of_mem hmem)
        have hskip : ∀ s, s ∈ (headerScan lang ver rest (svc :: processed)).map
              (fun h => h.id) → s ∉ processed := by
          intro s hs hmem
          exact (ih (svc :: processed)).2 s hs (List.mem_cons_of_mem _ hmem)
        cases parsed with
        | none =>
          have h1 : headerScan lang ver ((p, none) :: rest) processed
              = headerScan lang ver rest (svc :: processed) := by
            simp [headerScan, hpm, hnotmem]
          rw [h1]
          exact ⟨(ih (svc :: processed)).1, hskip⟩
        | some doc =>
          by_cases htr : truthy doc = true
          · cases hinfo : optFilter truthy (getField doc "info") with
            | none =>
              have h1 : headerScan lang ver ((p, some doc) :: rest) processed
                  = headerScan lang ver rest (svc :: processed) := by
                simp [headerScan, hpm, hnotmem, htr, hinfo]
              rw [h1]
              exact ⟨(ih (svc :: processed)).1, hskip⟩
            | some info =>
              have h1 : (headerScan lang ver ((p, some doc) :: rest) processed).map
                    (fun h => h.id)
                  = svc :: (headerScan lang ver rest (svc :: processed)).map
                    (fun h => h.id) := by
                simp [headerScan, hpm, hnotmem, htr, hinfo]
              rw [h1]
              constructor
              · refine List.Nodup.cons ?_ (ih (svc :: processed)).1
                intro hmem
                exact (ih (svc :: processed)).2 svc hmem (List.mem_cons_self _ _)
              · intro s hs
                rcases List.mem_cons.mp hs with h | h
                · subst h
                  exact hnotmem
                · exact hskip s h
          · have htr2 : truthy doc = false := by simpa using htr
            have h1 : headerScan lang ver ((p, some doc) :: rest) processed
                = headerScan lang ver rest (svc :: processed) := by
              simp [headerScan, hpm, hnotmem, htr2]
            rw [h1]
            exact ⟨(ih (svc :: processed)).1, hskip⟩

/-! ## Claim theorems -/

/-- C1: the claim says two `loadAllApiSpecs` calls for the same
`(language, version)` pair within the 5-minute TTL return structurally
identical lists.  The code violates this: the cache-hit path filters the
cached specs by `spec.version.startsWith(version)`, where `spec.version`
is the document's own `info.version` (here `"1.0.0"`), so the second
call returns the empty list although nothing changed.  (The computed
`cacheKey` of line 41 is never used.) -/
theorem loadAllApiSpecs_cache_hit_not_idempotent :
    (loadAllApiSpecs envOneV3File none 0 "en" "v3").specs.length = 1
    ∧ (loadAllApiSpecs envOneV3File
        (loadAllApiSpecs envOneV3File none 0 "en" "v3").cache 1000 "en" "v3").specs
      = [] := ⟨rfl, rfl⟩

/-- C2 (counterexample): two valid files in the same service directory
`pay/v3/` produce TWO documents with the same id — `loadAllApiSpecs`
performs no per-service deduplication, contradicting "exactly one
`ApiSpecDocument` per unique service directory". -/
theorem loadAllApiSpecs_duplicate_service_ids :
    ((loadAllApiSpecs envTwoFilesOneService none 0 "en" "v3").specs.map
      (fun s => s.id)) = ["pay", "pay"] := rfl

/-- C2 (amended): `loadAllApiSpecs` applies no per-service
deduplication: every returned document stems from one discovered valid
file of the scan, with id equal to that file's service directory — so
distinct valid files in one service directory each contribute their own
entry (the counterexample exhibits two documents sharing id `"pay"`).
Per-file completeness is not claimed: the source's per-file `catch` can
still skip a valid file whose rendering/sort throws on malformed
operation fields.  The per-service first-occurrence-wins uniqueness
holds instead in the header projection `headerScan`
(`getApiSpecsForHeader`), whose ids are pairwise distinct. -/
theorem loadAllApiSpecs_no_service_dedup :
    (∀ (files : SpecFiles) (lang ver : String) (now : Nat)
        (sp : DynamicApiSpec),
      files.versionedGlobThrows = false →
      sp ∈ (loadAllApiSpecs files none now lang ver).specs →
      ∃ p, p ∈ files.versionedFiles ∧ langVerFilter lang ver p.1 = true
        ∧ isValidSpecFile p = true ∧ sp.id = serviceDirOf p.1)
    ∧ (∀ (lang ver : String) (l : List (String × Option JVal)),
        ((headerScan lang ver l []).map (fun h => h.id)).Nodup) := by
  constructor
  · intro files lang ver now sp hng hmem
    have hscan : (loadAllApiSpecs files none now lang ver).specs
        = scanVersionedSpecs files.versionedFiles lang ver := by
      simp [loadAllApiSpecs, hng]
    rw [hscan, scanVersionedSpecs] at hmem
    obtain ⟨p, hpmem, hproc⟩ := List.mem_filterMap.mp hmem
    obtain ⟨hpfiles, hpfilter⟩ := List.mem_filter.mp hpmem
    by_cases hv : isValidSpecFile p = true
    · obtain ⟨sp2, hsp2, hid⟩ := (processVersionedFile_valid_iff lang p).1 hv
      have heq : sp2 = sp := Option.some_inj.mp (hsp2.symm.trans hproc)
      exact ⟨p, hpfiles, hpfilter, hv, heq ▸ hid⟩
    · have hv2 : isValidSpecFile p = false := by simpa using hv
      have hnone := (processVersionedFile_valid_iff lang p).2 hv2
      rw [hnone] at hproc
      cases hproc
  · intro lang ver l
    exact (headerScan_nodup_aux lang ver l []).1

/-- Witness for C2's amended theorem: the first of the two documents the
duplicate-file environment returns is traced back to a valid file. -/
theorem loadAllApiSpecs_no_service_dedup_witness :
    ∃ p, p ∈ envTwoFilesOneService.versionedFiles
      ∧ langVerFilter "en" "v3" p.1 = true ∧ isValidSpecFile p = true
      ∧ paySpecA.id = serviceDirOf p.1 :=
  loadAllApiSpecs_no_service_dedup.1 envTwoFilesOneService "en" "v3" 0 paySpecA
    rfl
    (by
      rw [show (loadAllApiSpecs envTwoFilesOneService none 0 "en" "v3").specs
          = [paySpecA, paySpecB] from rfl]
      exact List.mem_cons_self _ _)

/-- C3 (counterexample): zero versioned files for `(en, v3)` with one
valid legacy flat-layout file present — `loadAllApiSpecs` returns `[]`
and does NOT fall back to the legacy layout (the fallback only runs from
`catch (globError)`), although `loadLegacyApiSpecs` would have returned
that one spec (with version defaulted to `"1.0.0"`). -/
theorem zero_versioned_files_do_not_fall_back :
    (loadAllApiSpecs envLegacyOnly none 0 "en" "v3").specs = []
    ∧ (loadLegacyApiSpecs envLegacyOnly "en").map (fun s => (s.id, s.version))
      = [("payment", JVal.str "1.0.0")] := ⟨rfl, rfl⟩

/-- C3 (amended): the legacy fallback triggers only when the versioned
glob import itself throws; it then returns the legacy specs and leaves
the versioned cache untouched; each legacy spec's version defaults to
the document's own `info.version` or `"1.0.0"`; a zero-file scan result
is NOT a fallback trigger — it stores and returns the empty list. -/
theorem legacy_fallback_only_on_glob_error :
    (∀ (files : SpecFiles) (cache : Option ApiSpecCacheEntry) (now : Nat)
        (lang ver : String),
      files.versionedGlobThrows = true → cacheMiss cache now →
      loadAllApiSpecs files cache now lang ver
        = ⟨loadLegacyApiSpecs files lang, cache⟩)
    ∧ (∀ (lang path : String) (doc : JVal) (sp : DynamicApiSpec),
        processLegacyFile lang (path, some doc) = some sp →
        ∃ info, optFilter truthy (getField doc "info") = some info ∧
          sp.version = jsOr (getField info "version") (.str "1.0.0"))
    ∧ (∀ (files : SpecFiles) (now : Nat) (lang ver : String),
        files.versionedGlobThrows = false →
        files.versionedFiles.filter (fun p => langVerFilter lang ver p.1) = [] →
        loadAllApiSpecs files none now lang ver = ⟨[], some ⟨[], now⟩⟩) := by
  refine ⟨?_, ?_, ?_⟩
  · intro files cache now lang ver hg hmiss
    cases cache with
    | none => simp [loadAllApiSpecs, hg]
    | some entry =>
      have hstale : ¬ (now - entry.lastUpdated < CACHE_DURATION) := by
        rw [cacheMiss] at hmiss
        omega
      simp [loadAllApiSpecs, hg, hstale]
  · intro lang path doc sp hp
    by_cases htr : truthy doc = true
    · cases hinfo : optFilter truthy (getField doc "info") with
      | none =>
        rw [processLegacyFile] at hp
        simp [htr, hinfo] at hp
      | some info =>
        refine ⟨info, rfl, ?_⟩
        rw [processLegacyFile] at hp
        simp only [htr, hinfo, if_true] at hp
        rw [← Option.some_inj.mp hp]
    · have htr2 : truthy doc = false := by simpa using htr
      rw [processLegacyFile] at hp
      simp [htr2] at hp
  · intro files now lang ver hng hfil
    simp [loadAllApiSpecs, hng, scanVersionedSpecs, hfil]

/-- Witness for C3's amended theorem: a throwing glob with a legacy file
present falls back without touching the cache. -/
theorem legacy_fallback_only_on_glob_error_witness :
    loadAllApiSpecs
        { envLegacyOnly with versionedGlobThrows := true } none 0 "en" "v3"
      = ⟨loadLegacyApiSpecs { envLegacyOnly with versionedGlobThrows := true }
          "en", none⟩ :=
  legacy_fallback_only_on_glob_error.1
    { envLegacyOnly with versionedGlobThrows := true } none 0 "en" "v3"
    rfl trivial

/-- C4: the example-synthesis precedence of `generateExampleFromSchema`,
exactly as claimed: explicit `example` verbatim; else `$ref` resolved
and recursed (failed walk → `null`); else type-directed — a string with
format `email`/`date-time`/`date` gets its fixed value, while ANY other
format (absent, unrecognized such as `"uuid"`, or non-string) falls
through to the first-enum-value rule and then the `"string"` literal;
number/integer default-or-`0`; boolean default-or-`false`; array
`[items-example]` or `[]`; object per-property recursion or `{}`; any
other/absent type → `null`; with the two concrete anchors
`{type: string, format: email}` → `"user@example.com"` and
`{type: array, items: {type: integer}}` → `[0]`. -/
theorem generateExampleFromSchema_rules :
    (∀ spec fuel l v, lookupKey l "example" = some v →
      generateExampleFromSchema spec (fuel + 1) (.obj l) = .ok v)
    ∧ (∀ spec fuel l r, lookupKey l "example" = none →
        lookupKey l "$ref" = some (.str r) → r ≠ "" →
        generateExampleFromSchema spec (fuel + 1) (.obj l)
          = (match walkRef spec (refSegments r) with
             | some target => generateExampleFromSchema spec fuel target
             | none => .ok .null))
    ∧ (∀ spec fuel l, lookupKey l "example" = none →
        optFilter truthy (lookupKey l "$ref") = none →
        lookupKey l "type" = some (.str "string") →
        (lookupKey l "format" = some (.str "email") →
          generateExampleFromSchema spec (fuel + 1) (.obj l)
            = .ok (.str "user@example.com"))
        ∧ (lookupKey l "format" = some (.str "date-time") →
          generateExampleFromSchema spec (fuel + 1) (.obj l)
            = .ok (.str "2024-01-01T00:00:00Z"))
        ∧ (lookupKey l "format" = some (.str "date") →
          generateExampleFromSchema spec (fuel + 1) (.obj l)
            = .ok (.str "2024-01-01"))
        ∧ (isRecognizedFormat (lookupKey l "format") = false →
            (∀ v vs, optFilter truthy (lookupKey l "enum") = some (.arr (v :: vs)) →
              generateExampleFromSchema spec (fuel + 1) (.obj l) = .ok v)
            ∧ (optFilter truthy (lookupKey l "enum") = none →
              generateExampleFromSchema spec (fuel + 1) (.obj l)
                = .ok (.str "string"))))
    ∧ (∀ spec fuel l t, lookupKey l "example" = none →
        optFilter truthy (lookupKey l "$ref") = none →
        lookupKey l "type" = some t →
        (t = .str "number" ∨ t = .str "integer") →
        generateExampleFromSchema spec (fuel + 1) (.obj l)
          = (match lookupKey l "default" with
             | some d => .ok d
             | none => .ok (.num 0)))
    ∧ (∀ spec fuel l, lookupKey l "example" = none →
        optFilter truthy (lookupKey l "$ref") = none →
        lookupKey l "type" = some (.str "boolean") →
        generateExampleFromSchema spec (fuel + 1) (.obj l)
          = (match lookupKey l "default" with
             | some d => .ok d
             | none => .ok (.bool false)))
    ∧ (∀ spec fuel l, lookupKey l "example" = none →
        optFilter truthy (lookupKey l "$ref") = none →
        lookupKey l "type" = some (.str "array") →
        (∀ items, optFilter truthy (lookupKey l "items") = some items →
          generateExampleFromSchema spec (fuel + 1) (.obj l)
            = (match generateExampleFromSchema spec fuel items with
               | .ok e => .ok (.arr [e])
               | .error e => .error e))
        ∧ (optFilter truthy (lookupKey l "items") = none →
          generateExampleFromSchema spec (fuel + 1) (.obj l) = .ok (.arr [])))
    ∧ (∀ spec fuel l, lookupKey l "example" = none →
        optFilter truthy (lookupKey l "$ref") = none →
        lookupKey l "type" = some (.str "object") →
        (∀ props, optFilter truthy (lookupKey l "properties") = some (.obj props) →
          generateExampleFromSchema spec (fuel + 1) (.obj l)
            = (match props.mapM (fun kv =>
                  (generateExampleFromSchema spec fuel kv.2).map
                    (fun e => (kv.1, e))) with
               | .ok el => .ok (.obj el)
               | .error e => .error e))
        ∧ (optFilter truthy (lookupKey l "properties") = none →
          generateExampleFromSchema spec (fuel + 1) (.obj l) = .ok (.obj [])))
    ∧ (∀ spec fuel l, lookupKey l "example" = none →
        optFilter truthy (lookupKey l "$ref") = none →
        (lookupKey l "type" = none →
          generateExampleFromSchema spec (fuel + 1) (.obj l) = .ok .null)
        ∧ (∀ t, lookupKey l "type" = some t → isHandledType t = false →
          generateExampleFromSchema spec (fuel + 1) (.obj l) = .ok .null))
    ∧ generateExampleFromSchema (.obj []) 2
        (.obj [("type", .str "string"), ("format", .str "email")])
        = .ok (.str "user@example.com")
    ∧ generateExampleFromSchema (.obj []) 3
        (.obj [("type", .str "array"), ("items", .obj [("type", .str "integer")])])
        = .ok (.arr [.num 0]) := by
  refine ⟨?_, ?_, ?_, ?_, ?_, ?_, ?_, ?_, rfl, rfl⟩
  · intro spec fuel l v hex
    simp [generateExampleFromSchema, getField, truthy, hex]
  · intro spec fuel l r hex href hr
    simp [generateExampleFromSchema, getField, truthy, hex, href, optFilter, hr]
  · intro spec fuel l hex href hty
    refine ⟨?_, ?_, ?_, ?_⟩
    · intro hfmt
      simp [generateExampleFromSchema, getField, truthy, hex, href, hty, hfmt]
    · intro hfmt
      simp [generateExampleFromSchema, getField, truthy, hex, href, hty, hfmt]
    · intro hfmt
      simp [generateExampleFromSchema, getField, truthy, hex, href, hty, hfmt]
    · intro hfmt
      constructor
      · intro v vs henum
        cases hf : lookupKey l "format" with
        | none =>
          simp [generateExampleFromSchema, getField, truthy, hex, href, hty,
            hf, henum, jsIndexZero]
        | some fv =>
          rw [hf] at hfmt
          cases fv with
          | str s =>
            have h1 : ¬ s = "email" := by
              intro h
              subst h
              simp [isRecognizedFormat] at hfmt
            have h2 : ¬ s = "date-time" := by
              intro h
              subst h
              simp [isRecognizedFormat] at hfmt
            have h3 : ¬ s = "date" := by
              intro h
              subst h
              simp [isRecognizedFormat] at hfmt
            simp [generateExampleFromSchema, getField, truthy, hex, href, hty,
              hf, h1, h2, h3, henum, jsIndexZero]
          | null =>
            simp [generateExampleFromSchema, getField, truthy, hex, href, hty,
              hf, henum, jsIndexZero]
          | bool b =>
            simp [generateExampleFromSchema, getField, truthy, hex, href, hty,
              hf, henum, jsIndexZero]
          | num n =>
            simp [generateExampleFromSchema, getField, truthy, hex, href, hty,
              hf, henum, jsIndexZero]
          | arr a2 =>
            simp [generateExampleFromSchema, getField, truthy, hex, href, hty,
              hf, henum, jsIndexZero]
          | obj o =>
            simp [generateExampleFromSchema, getField, truthy, hex, href, hty,
              hf, henum, jsIndexZero]
      · intro henum
        cases hf : lookupKey l "format" with
        | none =>
          simp [generateExampleFromSchema, getField, truthy, hex, href, hty,
            hf, henum]
        | some fv =>
          rw [hf] at hfmt
          cases fv with
          | str s =>
            have h1 : ¬ s = "email" := by
              intro h
              subst h
              simp [isRecognizedFormat] at hfmt
            have h2 : ¬ s = "date-time" := by
              intro h
              subst h
              simp [isRecognizedFormat] at hfmt
            have h3 : ¬ s = "date" := by
              intro h
              subst h
              simp [isRecognizedFormat] at hfmt
            simp [generateExampleFromSchema, getField, truthy, hex, href, hty,
              hf, h1, h2, h3, henum]
          | null =>
            simp [generateExampleFromSchema, getField, truthy, hex, href, hty,
              hf, henum]
          | bool b =>
            simp [generateExampleFromSchema, getField, truthy, hex, href, hty,
              hf, henum]
          | num n =>
            simp [generateExampleFromSchema, getField, truthy, hex, href, hty,
              hf, henum]
          | arr a2 =>
            simp [generateExampleFromSchema, getField, truthy, hex, href, hty,
              hf, henum]
          | obj o =>
            simp [generateExampleFromSchema, getField, truthy, hex, href, hty,
              hf, henum]
  · intro spec fuel l t hex href hty ht
    rcases ht with h | h <;> subst h <;>
      simp [generateExampleFromSchema, getField, truthy, hex, href, hty]
  · intro spec fuel l hex href hty
    simp [generateExampleFromSchema, getField, truthy, hex, href, hty]
  · intro spec fuel l hex href hty
    constructor
    · intro items hitems
      simp [generateExampleFromSchema, getField, truthy, hex, href, hty, hitems]
    · intro hitems
      simp [generateExampleFromSchema, getField, truthy, hex, href, hty, hitems]
  · intro spec fuel l hex href hty
    constructor
    · intro props hprops
      simp [generateExampleFromSchema, getField, truthy, hex, href, hty, hprops,
        entriesOf]
    · intro hprops
      simp [generateExampleFromSchema, getField, truthy, hex, href, hty, hprops]
  · intro spec fuel l hex href
    constructor
    · intro hty
      simp [generateExampleFromSchema, getField, truthy, hex, href, hty]
    · intro t hty hnh
      cases t with
      | str s =>
        simp only [isHandledType, List.mem_cons, List.not_mem_nil, or_false,
          decide_eq_false_iff_not] at hnh
        push_neg at hnh
        obtain ⟨h1, h2, h3, h4, h5, h6⟩ := hnh
        simp [generateExampleFromSchema, getField, truthy, hex, href, hty,
          h1, h2, h3, h4, h5, h6]
      | null => simp [generateExampleFromSchema, getField, truthy, hex, href, hty]
      | bool b => simp [generateExampleFromSchema, getField, truthy, hex, href, hty]
      | num n => simp [generateExampleFromSchema, getField, truthy, hex, href, hty]
      | arr xs => simp [generateExampleFromSchema, getField, truthy, hex, href, hty]
      | obj o => simp [generateExampleFromSchema, getField, truthy, hex, href, hty]

/-- Witness for C4 at a concrete schema with an explicit example. -/
theorem generateExampleFromSchema_rules_witness :
    generateExampleFromSchema (.obj []) 1 (.obj [("example", .str "X")])
      = .ok (.str "X") :=
  generateExampleFromSchema_rules.1 (.obj []) 0 [("example", .str "X")]
    (.str "X") rfl

/-- C5: a `$ref` whose segment walk fails at any point makes the
generator return `null` (`Except.ok JVal.null` — an absent value, not a
thrown exception), for every input document. -/
theorem ref_missing_segment_yields_null :
    ∀ spec fuel l r, lookupKey l "example" = none →
      lookupKey l "$ref" = some (.str r) → r ≠ "" →
      walkRef spec (refSegments r) = none →
      generateExampleFromSchema spec (fuel + 1) (.obj l) = .ok .null := by
  intro spec fuel l r hex href hr hwalk
  simp [generateExampleFromSchema, getField, hex, href, optFilter, truthy, hr,
    hwalk]

/-- Witness for C5: an unresolved `#/components/schemas/Missing`. -/
theorem ref_missing_segment_yields_null_witness :
    generateExampleFromSchema (.obj []) 1
      (.obj [("$ref", .str "#/components/schemas/Missing")]) = .ok .null :=
  ref_missing_segment_yields_null (.obj []) 0
    [("$ref", .str "#/components/schemas/Missing")] "#/components/schemas/Missing"
    rfl rfl (by decide) rfl

/-- C6: for every HTTP method the extractor probes, the synthesized
operation id is `lower(method) ++ "_" ++ sanitize(path)` where
`sanitize` is exactly the spec's description (braces removed, every
non-alphanumeric run replaced by one underscore, leading/trailing
underscores stripped); in particular `get` + `/users/{id}/orders` gives
`get_users_id_orders`. -/
theorem generateOperationId_synthesis :
    (∀ method path, method ∈ httpMethods →
      generateOperationId method path
        = strToLower method ++ "_" ++ specSanitize path)
    ∧ generateOperationId "get" "/users/{id}/orders" = "get_users_id_orders" := by
  constructor
  · intro method path hm
    have hl : strToLower method = method := by
      fin_cases hm <;> rfl
    rw [hl, generateOperationId, cleanPath_eq_specSanitize]
  · rfl

/-- Witness for C6 at a concrete method and path. -/
theorem generateOperationId_synthesis_witness :
    generateOperationId "post" "/payments/{paymentId}"
      = strToLower "post" ++ "_" ++ specSanitize "/payments/{paymentId}" :=
  generateOperationId_synthesis.1 "post" "/payments/{paymentId}" (by decide)

/-- C7: the claim says the lowest version is labelled "Legacy".  The
code compares the sorted index against `versions.length - 1`, the length
of the per-FILE array, not the number of distinct versions: with two
files in `v1/` and one in `v2/` (three parsed files, two versions), the
lowest version `v1` sits at index 1 ≠ 3 - 1 and gets NO badge. -/
theorem getApiVersions_legacy_badge_uses_file_count :
    ((getApiVersions envThreeFilesTwoVersions [] 0 "pay" "en").1.map
      (fun v => (v.version, v.label, v.badge)))
    = [("v2", "v2 (Latest)", some (JVal.str "Latest")), ("v1", "v1", none)] := rfl

/-- C8: a stored version-cache entry is returned unchanged at every
later call time — the hit path never consults the clock (the declared
`CACHE_DURATION` is dead) — and only `clearApiVersionCache` removes
entries. -/
theorem versionCache_never_expires :
    ∀ (files : SpecFiles) (cache : VersionCache) (now now2 : Nat)
      (serviceName language : String) (v : List ApiVersionInfo),
      cacheGet cache (serviceName ++ "-" ++ language) = some v →
      getApiVersions files cache now serviceName language = (v, cache)
      ∧ getApiVersions files cache now2 serviceName language = (v, cache)
      ∧ clearApiVersionCache cache = [] := by
  intro files cache now now2 serviceName language v h
  refine ⟨?_, ?_, rfl⟩ <;> simp [getApiVersions, h]

/-- Witness for C8 at a concrete cache and two far-apart call times. -/
theorem versionCache_never_expires_witness :
    getApiVersions envOneV3File [("pay-en", fallbackVersions)] 999999999
        "pay" "en"
      = (fallbackVersions, [("pay-en", fallbackVersions)]) :=
  (versionCache_never_expires envOneV3File [("pay-en", fallbackVersions)]
    999999999 0 "pay" "en" fallbackVersions rfl).1

/-- C9 (counterexample): `getApiOperation` is pinned to `v3`, but the
claim's "never returned" fails: after a prior `(en, v2)` call warms the
global cache, the `v3` request is served from that cache, and a document
inside `v2/` whose declared `info.version` is `"v3.1"` passes the
`startsWith("v3")` filter — its operation is returned although no file
exists under any `v3/` directory. -/
theorem getApiOperation_serves_v2_operation_from_cache :
    ((getApiOperation envOnlyV2File
        (loadAllApiSpecs envOnlyV2File none 0 "en" "v2").cache
        1000 "payment-api" "createPayment" "en").1.map
      (fun op => op.operationId))
      = some (.str "createPayment")
    ∧ envOnlyV2File.versionedFiles.all
        (fun p => !(strIncludes p.1 "/v3/")) = true := ⟨rfl, rfl⟩

/-- C9 (amended): `getApiOperation` passes no version, so
`getApiSpecById`'s default `'v3'` applies; on a COLD cache an operation
whose files all live outside any `v3/` directory is never returned.  (A
warm cache can still serve one, as the counterexample shows.) -/
theorem getApiOperation_pinned_to_v3_cold_cache :
    ∀ (files : SpecFiles) (now : Nat) (specId opId lang : String),
      files.versionedGlobThrows = false →
      files.versionedFiles.all (fun p => !(strIncludes p.1 "/v3/")) = true →
      (getApiOperation files none now specId opId lang).1 = none := by
  intro files now specId opId lang hng hall
  have hfil : files.versionedFiles.filter
      (fun p => langVerFilter lang "v3" p.1) = [] := by
    rw [List.filter_eq_nil_iff]
    intro p hp
    have h3 := List.all_eq_true.mp hall p hp
    simp only [Bool.not_eq_true'] at h3
    simp [langVerFilter, h3]
  simp [getApiOperation, getApiSpecById, loadAllApiSpecs, hng,
    scanVersionedSpecs, hfil]

/-- Witness for C9's amended theorem. -/
theorem getApiOperation_pinned_to_v3_cold_cache_witness :
    (getApiOperation envLegacyOnly none 5 "payment" "listOps" "en").1 = none :=
  getApiOperation_pinned_to_v3_cold_cache envLegacyOnly 5 "payment" "listOps"
    "en" rfl rfl

/-- C10: the simple loader includes an operation only when the method
object has an `operationId` KEY: without the key the operation is
dropped (no synthesized id); with the key present but falsy, the id is
the hyphenated `method-path` form (not the underscore-sanitized one);
with a truthy value, that value is used; plus the two concrete loader
runs. -/
theorem simple_loader_drops_keyless_operations :
    (∀ (pathStr m : String) (l : List (String × JVal)), m ∈ simpleMethods →
      lookupKey l "operationId" = none →
      simpleExtractOps (singlePathSpec pathStr m (.obj l)) = .ok [])
    ∧ (∀ (pathStr m : String) (l : List (String × JVal)) (v : JVal),
        m ∈ simpleMethods →
        lookupKey l "operationId" = some v → truthy v = false →
        simpleExtractOps (singlePathSpec pathStr m (.obj l))
          = .ok [{ operationId := .str (m ++ "-" ++ pathStr)
                   method := strToUpper m
                   path := pathStr
                   summary := jsOr (lookupKey l "summary") (.str "")
                   description := lookupKey l "description"
                   tags := jsOr (lookupKey l "tags") (.arr []) }])
    ∧ (∀ (pathStr m : String) (l : List (String × JVal)) (v : JVal),
        m ∈ simpleMethods →
        lookupKey l "operationId" = some v → truthy v = true →
        simpleExtractOps (singlePathSpec pathStr m (.obj l))
          = .ok [{ operationId := v
                   method := strToUpper m
                   path := pathStr
                   summary := jsOr (lookupKey l "summary") (.str "")
                   description := lookupKey l "description"
                   tags := jsOr (lookupKey l "tags") (.arr []) }])
    ∧ (loadSimpleApiSpec dirNoOperationId "pay" "en" "v3").map
        (fun s => s.operations) = some []
    ∧ (loadSimpleApiSpec dirFalsyOperationId "pay" "en" "v3").map
        (fun s => s.operations.map (fun op => op.operationId))
      = some [.str "get-/a"] := by
  refine ⟨?_, ?_, ?_, rfl, rfl⟩
  · intro pathStr m l hm h
    have hfind : l.find? (fun p => p.1 == "operationId") = none :=
      Option.map_eq_none'.mp h
    fin_cases hm <;>
      simp [simpleExtractOps, singlePathSpec, getField, optFilter, truthy,
        entriesOf, simplePathEntries, simpleMethodOps, simpleOpFor, jsAccess,
        lookupKey, containsKey, simpleMethods, hfind]
  · intro pathStr m l v hm h htr
    obtain ⟨pr, hfind, hv⟩ := Option.map_eq_some'.mp h
    fin_cases hm <;>
      simp [simpleExtractOps, singlePathSpec, getField, optFilter,
        entriesOf, simplePathEntries, simpleMethodOps, simpleOpFor, jsAccess,
        lookupKey, containsKey, simpleMethods, hfind, hv, jsOr, htr, truthy_obj]
  · intro pathStr m l v hm h htr
    obtain ⟨pr, hfind, hv⟩ := Option.map_eq_some'.mp h
    fin_cases hm <;>
      simp [simpleExtractOps, singlePathSpec, getField, optFilter,
        entriesOf, simplePathEntries, simpleMethodOps, simpleOpFor, jsAccess,
        lookupKey, containsKey, simpleMethods, hfind, hv, jsOr, htr, truthy_obj]

/-- Witness for C10 at a concrete falsy `operationId`. -/
theorem simple_loader_drops_keyless_operations_witness :
    simpleExtractOps (singlePathSpec "/a" "get" (.obj [("operationId", .str "")]))
      = .ok [{ operationId := .str ("get" ++ "-" ++ "/a")
               method := strToUpper "get"
               path := "/a"
               summary := jsOr (lookupKey [("operationId", JVal.str "")]
                 "summary") (.str "")
               description := lookupKey [("operationId", JVal.str "")]
                 "description"
               tags := jsOr (lookupKey [("operationId", JVal.str "")] "tags")
                 (.arr []) }] :=
  simple_loader_drops_keyless_operations.2.1 "/a" "get"
    [("operationId", .str "")] (.str "") (by decide) rfl rfl

end PreviewSite
